import Mathlib

/-!
Verification of the elastic array implementation
(`src/libcperciva/datastruct/elasticarray.c`).

The C code is embedded shallowly:

* `size_t` values are natural numbers; wherever the C source performs
  `size_t` arithmetic that can wrap, the embedding computes modulo
  `W = 2 ^ 64` explicitly.
* the backing allocation `void * buf` is a `List Nat` of bytes whose
  length equals the allocated size; the null pointer (no allocation)
  is the empty list.
* `realloc` is modelled by `reallocBytes`: it preserves the first
  `min (old length) (new length)` bytes and fills freshly allocated
  bytes from an arbitrary oracle `junk` (uninitialized memory).
  Whether an individual `realloc`/`malloc` call succeeds is an
  explicit `Bool` parameter (`ok`, `okMalloc`) of each operation.
* functions that return `0`/`-1` and mutate `EA` in place become
  functions returning `Bool × EArray` (success flag, post state);
  on the C failure paths the returned state is the untouched input,
  exactly as the source leaves `*EA` unmodified there.
-/

namespace Elasticarray

/-- The constant `2 ^ 64`, one more than `SIZE_MAX`; `size_t` arithmetic wraps mod `W`. -/
def W : Nat := 2 ^ 64

/-- The constant `SIZE_MAX` for a 64-bit `size_t`. -/
def SIZE_MAX : Nat := 2 ^ 64 - 1

/-- The state `struct elasticarray { size_t size; size_t alloc; void * buf; }`.
The backing allocation is a byte list; an absent allocation (null `buf`)
is the empty list. -/
structure EArray where
  size : Nat
  alloc : Nat
  buf : List Nat
deriving DecidableEq, Repr

/-- Model of `realloc(buf, nalloc)` on success: the first
`min buf.length nalloc` bytes are preserved, any newly allocated bytes
hold unspecified values drawn from the oracle `junk`. -/
def reallocBytes (buf : List Nat) (nalloc : Nat) (junk : Nat → Nat) : List Nat :=
  buf.take nalloc ++ (List.range (nalloc - buf.length)).map junk

/-- The allocation-size computation of the internal `resize` primitive
(`elasticarray.c` lines 27-38), in `size_t` arithmetic:
if `alloc < nsize` then `nalloc = alloc * 2`, bumped up to `nsize` if
still smaller; else if `alloc > nsize * 4` then `nalloc = nsize * 2`;
else `nalloc = alloc`. -/
def resize_nalloc (alloc nsize : Nat) : Nat :=
  if alloc < nsize then
    if (alloc * 2) % W < nsize then nsize else (alloc * 2) % W
  else if (nsize * 4) % W < alloc then
    (nsize * 2) % W
  else
    alloc

/-- Internal `resize(EA, nsize)` (`elasticarray.c` lines 21-66): compute the new
allocation size; if it is zero, free the buffer; otherwise reallocate if
the allocation size changes, failing (buffer unmodified) when `realloc`
fails; finally record the new array size. -/
def resize (EA : EArray) (nsize : Nat) (ok : Bool) (junk : Nat → Nat) :
    Bool × EArray :=
  let nalloc := resize_nalloc EA.alloc nsize
  if nalloc = 0 then
    (true, { size := nsize, alloc := 0, buf := [] })
  else if nalloc ≠ EA.alloc then
    if ok then
      (true, { size := nsize, alloc := nalloc,
               buf := reallocBytes EA.buf nalloc junk })
    else
      (false, EA)
  else
    (true, { EA with size := nsize })

/-- Function `elasticarray_resize(EA, nrec, reclen)`: overflow-check
`nrec > SIZE_MAX / reclen`, then `resize(EA, nrec * reclen)`. -/
def elasticarray_resize (EA : EArray) (nrec reclen : Nat) (ok : Bool)
    (junk : Nat → Nat) : Bool × EArray :=
  if SIZE_MAX / reclen < nrec then
    (false, EA)
  else
    resize EA ((nrec * reclen) % W) ok junk

/-- Function `elasticarray_init(nrec, reclen)`: allocate the wrapper (success
modelled by `okMalloc`), start from `size = alloc = 0`, `buf = NULL`,
then `elasticarray_resize` to the requested length; on failure the
wrapper is freed and nothing is returned. -/
def elasticarray_init (nrec reclen : Nat) (okMalloc ok : Bool)
    (junk : Nat → Nat) : Option EArray :=
  if okMalloc then
    match elasticarray_resize ⟨0, 0, []⟩ nrec reclen ok junk with
    | (true, EA1) => some EA1
    | (false, _) => none
  else
    none

/-- Function `elasticarray_getsize(EA, reclen) = EA->size / reclen`. -/
def elasticarray_getsize (EA : EArray) (reclen : Nat) : Nat :=
  EA.size / reclen

/-- Model of `memcpy(dst + pos, src, src.length)` inside a byte list. -/
def memcpyAt (dst : List Nat) (pos : Nat) (src : List Nat) : List Nat :=
  dst.take pos ++ src ++ dst.drop (pos + src.length)

/-- Function `elasticarray_append(EA, buf, nrec, reclen)`: record `bufpos`,
overflow-check `nrec > SIZE_MAX / reclen` and
`nrec * reclen > SIZE_MAX - EA->size`, `resize` to
`EA->size + nrec * reclen`, then copy the `nrec * reclen` source bytes
to offset `bufpos` (when `nrec > 0`). -/
def elasticarray_append (EA : EArray) (src : List Nat) (nrec reclen : Nat)
    (ok : Bool) (junk : Nat → Nat) : Bool × EArray :=
  let bufpos := EA.size
  if SIZE_MAX / reclen < nrec ∨ SIZE_MAX - EA.size < (nrec * reclen) % W then
    (false, EA)
  else
    match resize EA ((EA.size + (nrec * reclen) % W) % W) ok junk with
    | (false, _) => (false, EA)
    | (true, EA1) =>
      if 0 < nrec then
        (true, { EA1 with
                 buf := memcpyAt EA1.buf bufpos (src.take ((nrec * reclen) % W)) })
      else
        (true, EA1)

/-- The target size computed by `elasticarray_shrink`
(`elasticarray.c` lines 197-202): `0` if `nrec > SIZE_MAX / reclen` or
`nrec * reclen > EA->size`, else `EA->size - nrec * reclen`. -/
def shrink_nsize (EA : EArray) (nrec reclen : Nat) : Nat :=
  if SIZE_MAX / reclen < nrec ∨ EA.size < (nrec * reclen) % W then
    0
  else
    EA.size - (nrec * reclen) % W

/-- Function `elasticarray_shrink(EA, nrec, reclen)`: `resize` to the shrink
target; if that fails, just record the new length and keep the old
buffer. Never fails. -/
def elasticarray_shrink (EA : EArray) (nrec reclen : Nat) (ok : Bool)
    (junk : Nat → Nat) : EArray :=
  let nsize := shrink_nsize EA nrec reclen
  match resize EA nsize ok junk with
  | (true, EA1) => EA1
  | (false, _) => { EA with size := nsize }

/-- Function `elasticarray_truncate(EA)`: free the buffer if `EA->size == 0`;
otherwise reallocate down to exactly `EA->size` bytes if
`EA->alloc > EA->size`, failing (buffer unmodified) when `realloc`
fails. -/
def elasticarray_truncate (EA : EArray) (ok : Bool) (junk : Nat → Nat) :
    Bool × EArray :=
  if EA.size = 0 then
    (true, { EA with alloc := 0, buf := [] })
  else if EA.size < EA.alloc then
    if ok then
      (true, { EA with alloc := EA.size
                       buf := reallocBytes EA.buf EA.size junk })
    else
      (false, EA)
  else
    (true, EA)

/-- Function `elasticarray_get(EA, pos, reclen)`: the unchecked byte offset
`pos * reclen` of the returned record pointer. -/
def elasticarray_get (EA : EArray) (pos reclen : Nat) : Nat :=
  (pos * reclen) % W

/-- Function `elasticarray_iter(EA, reclen, fp)`: the sequence of values produced
by calling `fp` on each record pointer, in loop order; the source calls
`fp(elasticarray_get(EA, reclen, i))` for `i = 0, 1, ...,
elasticarray_getsize(EA, reclen) - 1` (note the source passes `reclen`
as `pos` and `i` as `reclen`). -/
def elasticarray_iter {α : Type} (EA : EArray) (reclen : Nat)
    (fp : Nat → α) : List α :=
  (List.range (elasticarray_getsize EA reclen)).map
    (fun i => fp (elasticarray_get EA reclen i))

/-- Function `elasticarray_export(EA, buf, nrec, reclen)`: truncate; on failure
return failure with the wrapper (and its state) intact; on success hand
out the backing allocation itself together with the record count, and
free only the wrapper. -/
def elasticarray_export (EA : EArray) (reclen : Nat) (ok : Bool)
    (junk : Nat → Nat) : Option (List Nat × Nat) × EArray :=
  match elasticarray_truncate EA ok junk with
  | (false, EA1) => (none, EA1)
  | (true, EA1) => (some (EA1.buf, elasticarray_getsize EA1 reclen), EA1)

/-- Function `elasticarray_exportdup(EA, buf, nrec, reclen)`: malloc a fresh
buffer of `EA->size` bytes (success modelled by `okMalloc`), copy the
`EA->size` content bytes into it and return it with the record count;
the array itself is never touched. -/
def elasticarray_exportdup (EA : EArray) (reclen : Nat) (okMalloc : Bool) :
    Option (List Nat × Nat) × EArray :=
  if okMalloc then
    (some (EA.buf.take EA.size, elasticarray_getsize EA reclen), EA)
  else
    (none, EA)

/-- Structural well-formedness of an array state: `size ≤ alloc`, the
backing allocation holds exactly `alloc` bytes (in particular it is
absent exactly when `alloc = 0`), and `alloc` fits in `size_t`. -/
def Inv (EA : EArray) : Prop :=
  EA.size ≤ EA.alloc ∧ EA.buf.length = EA.alloc ∧ EA.alloc ≤ SIZE_MAX

/-- The full spec invariant: `Inv` plus the `allocated_size ≤ 4 ×
logical_size` bound whenever `logical_size > 0`. -/
def Inv4 (EA : EArray) : Prop :=
  Inv EA ∧ (0 < EA.size → EA.alloc ≤ 4 * EA.size)

instance (EA : EArray) : Decidable (Inv EA) := by
  unfold Inv; infer_instance

instance (EA : EArray) : Decidable (Inv4 EA) := by
  unfold Inv4; infer_instance

/-- A state satisfying every spec invariant, including the 4x bound, on
which the claimed invariant preservation fails: half the address space
is allocated, a quarter is used. -/
def EAbig : EArray := ⟨2 ^ 62, 2 ^ 63, List.replicate (2 ^ 63) 0⟩

/-- A state satisfying every spec invariant, with nearly half the
address space in use, on which a successful append destroys the content:
the resize target `2^63` wraps the policy arithmetic. -/
def EAover : EArray := ⟨2 ^ 63 - 4, 2 ^ 63, List.replicate (2 ^ 63) 0⟩

/-- A sequence of appends with a fixed record length `L`, each of which
must succeed (the whole sequence fails otherwise); every element carries
its source bytes, record count, allocator outcome and junk oracle. -/
def appendSeq (L : Nat) :
    EArray → List (List Nat × Nat × Bool × (Nat → Nat)) → Option EArray
  | EA, [] => some EA
  | EA, op :: rest =>
    match elasticarray_append EA op.1 op.2.1 L op.2.2.1 op.2.2.2 with
    | (true, EA1) => appendSeq L EA1 rest
    | (false, _) => none

theorem W_eq : W = 18446744073709551616 := by norm_num [W]

theorem SIZE_MAX_eq : SIZE_MAX = 18446744073709551615 := by norm_num [SIZE_MAX]

theorem pow63_eq : (2 : Nat) ^ 63 = 9223372036854775808 := by norm_num

theorem W_pos : 0 < W := by rw [W_eq]; omega

theorem reallocBytes_length (buf : List Nat) (n : Nat) (junk : Nat → Nat) :
    (reallocBytes buf n junk).length = n := by
  simp [reallocBytes]
  omega

theorem reallocBytes_take (buf : List Nat) (n m : Nat) (junk : Nat → Nat)
    (h1 : m ≤ n) (h2 : m ≤ buf.length) :
    (reallocBytes buf n junk).take m = buf.take m := by
  unfold reallocBytes
  rw [List.take_append_of_le_length (by simp; omega)]
  rw [List.take_take, min_eq_left h1]

/-- The branch structure of `resize`, spelled out. -/
theorem resize_eq (EA : EArray) (nsize : Nat) (ok : Bool) (junk : Nat → Nat) :
    resize EA nsize ok junk =
      if resize_nalloc EA.alloc nsize = 0 then
        (true, ⟨nsize, 0, []⟩)
      else if resize_nalloc EA.alloc nsize ≠ EA.alloc then
        if ok then
          (true, ⟨nsize, resize_nalloc EA.alloc nsize,
                  reallocBytes EA.buf (resize_nalloc EA.alloc nsize) junk⟩)
        else
          (false, EA)
      else
        (true, ⟨nsize, EA.alloc, EA.buf⟩) := rfl

/-- Full case analysis of one `resize` call: it either fails with the
array untouched (only possible when a reallocation was actually
attempted, i.e. the computed allocation is nonzero and differs from the
current one, and the allocator refused), or succeeds with the new size
recorded, the allocation set to `resize_nalloc`, and the buffer freed,
reallocated, or left alone according to the branch taken. -/
theorem resize_master (EA : EArray) (nsize : Nat) (ok : Bool)
    (junk : Nat → Nat) :
    ((resize EA nsize ok junk).1 = false ∧ (resize EA nsize ok junk).2 = EA
       ∧ resize_nalloc EA.alloc nsize ≠ 0
       ∧ resize_nalloc EA.alloc nsize ≠ EA.alloc ∧ ok = false)
    ∨ ((resize EA nsize ok junk).1 = true
       ∧ (resize EA nsize ok junk).2.size = nsize
       ∧ (resize EA nsize ok junk).2.alloc = resize_nalloc EA.alloc nsize
       ∧ ((resize EA nsize ok junk).2.buf = []
            ∧ resize_nalloc EA.alloc nsize = 0
          ∨ (resize EA nsize ok junk).2.buf
              = reallocBytes EA.buf (resize_nalloc EA.alloc nsize) junk
          ∨ (resize EA nsize ok junk).2.buf = EA.buf
            ∧ resize_nalloc EA.alloc nsize = EA.alloc)) := by
  rw [resize_eq]
  split
  · rename_i h0
    right
    exact ⟨rfl, rfl, h0.symm, Or.inl ⟨rfl, h0⟩⟩
  · rename_i h0
    split
    · rename_i h1
      split
      · rename_i hok
        right
        exact ⟨rfl, rfl, rfl, Or.inr (Or.inl rfl)⟩
      · rename_i hok
        left
        exact ⟨rfl, rfl, h0, h1, by simpa using hok⟩
    · rename_i h1
      right
      refine ⟨rfl, rfl, ?_, Or.inr (Or.inr ⟨rfl, ?_⟩)⟩
      · simpa using (not_not.mp h1).symm
      · simpa using not_not.mp h1

theorem resize_fail {EA : EArray} {nsize : Nat} {ok : Bool} {junk : Nat → Nat}
    (h : (resize EA nsize ok junk).1 = false) :
    (resize EA nsize ok junk).2 = EA := by
  rcases resize_master EA nsize ok junk with hm | hm
  · exact hm.2.1
  · rw [hm.1] at h; cases h

theorem resize_snd_size {EA : EArray} {nsize : Nat} {ok : Bool}
    {junk : Nat → Nat} (h : (resize EA nsize ok junk).1 = true) :
    (resize EA nsize ok junk).2.size = nsize := by
  rcases resize_master EA nsize ok junk with hm | hm
  · rw [hm.1] at h; cases h
  · exact hm.2.1

theorem resize_snd_alloc {EA : EArray} {nsize : Nat} {ok : Bool}
    {junk : Nat → Nat} (h : (resize EA nsize ok junk).1 = true) :
    (resize EA nsize ok junk).2.alloc = resize_nalloc EA.alloc nsize := by
  rcases resize_master EA nsize ok junk with hm | hm
  · rw [hm.1] at h; cases h
  · exact hm.2.2.1

theorem resize_snd_buflen {EA : EArray} {nsize : Nat} {ok : Bool}
    {junk : Nat → Nat} (hlen : EA.buf.length = EA.alloc)
    (h : (resize EA nsize ok junk).1 = true) :
    (resize EA nsize ok junk).2.buf.length = resize_nalloc EA.alloc nsize := by
  rcases resize_master EA nsize ok junk with hm | hm
  · rw [hm.1] at h; cases h
  · rcases hm.2.2.2 with ⟨hb, h0⟩ | hb | ⟨hb, h0⟩
    · rw [hb, h0]; rfl
    · rw [hb, reallocBytes_length]
    · rw [hb, hlen, h0]

theorem resize_content {EA : EArray} {nsize : Nat} {ok : Bool}
    {junk : Nat → Nat} {m : Nat} (hm1 : m ≤ EA.buf.length)
    (hm2 : m ≤ resize_nalloc EA.alloc nsize)
    (h0 : resize_nalloc EA.alloc nsize ≠ 0)
    (h : (resize EA nsize ok junk).1 = true) :
    (resize EA nsize ok junk).2.buf.take m = EA.buf.take m := by
  rcases resize_master EA nsize ok junk with hm | hm
  · rw [hm.1] at h; cases h
  · rcases hm.2.2.2 with ⟨hb, hz⟩ | hb | ⟨hb, hz⟩
    · exact absurd hz h0
    · rw [hb, reallocBytes_take EA.buf _ m junk hm2 hm1]
    · rw [hb]

theorem resize_nalloc_le4 (A T : Nat) : resize_nalloc A T ≤ 4 * T := by
  unfold resize_nalloc
  split
  · split
    · omega
    · have := Nat.mod_le (A * 2) W
      omega
  · split
    · have := Nat.mod_le (T * 2) W
      omega
    · have := Nat.mod_le (T * 4) W
      omega

theorem resize_nalloc_ge {A T : Nat} (hT : T < 2 ^ 63) :
    T ≤ resize_nalloc A T := by
  unfold resize_nalloc
  split
  · split
    · omega
    · omega
  · split
    · rw [Nat.mod_eq_of_lt (by rw [W_eq]; rw [pow63_eq] at hT; omega)]
      omega
    · omega

theorem resize_nalloc_lt_W {A T : Nat} (hA : A < W) (hT : T < W) :
    resize_nalloc A T < W := by
  unfold resize_nalloc
  split
  · split
    · exact hT
    · exact Nat.mod_lt _ W_pos
  · split
    · exact Nat.mod_lt _ W_pos
    · exact hA

/-- Internal `resize` preserves the structural invariant as long as the requested
size stays below `2 ^ 63` (so that the doubling arithmetic cannot wrap). -/
theorem resize_inv {EA : EArray} {nsize : Nat} {ok : Bool}
    {junk : Nat → Nat} (hInv : Inv EA) (hT : nsize < 2 ^ 63) :
    Inv (resize EA nsize ok junk).2 := by
  cases hr : (resize EA nsize ok junk).1
  · rw [resize_fail hr]; exact hInv
  · refine ⟨?_, ?_, ?_⟩
    · rw [resize_snd_size hr, resize_snd_alloc hr]
      exact resize_nalloc_ge hT
    · rw [resize_snd_buflen hInv.2.1 hr, resize_snd_alloc hr]
    · rw [resize_snd_alloc hr]
      have h1 : EA.alloc < W := by
        have := hInv.2.2; rw [SIZE_MAX_eq] at this; rw [W_eq]; omega
      have h2 : nsize < W := by
        rw [W_eq]; rw [pow63_eq] at hT; omega
      have := resize_nalloc_lt_W h1 h2
      rw [SIZE_MAX_eq]; rw [W_eq] at this; omega

/-- After a successful `resize`, the allocation is at most four times the
new logical size. -/
theorem resize_bound4 {EA : EArray} {nsize : Nat} {ok : Bool}
    {junk : Nat → Nat} (h : (resize EA nsize ok junk).1 = true) :
    (resize EA nsize ok junk).2.alloc ≤ 4 * nsize := by
  rw [resize_snd_alloc h]
  exact resize_nalloc_le4 EA.alloc nsize

/-- Full case analysis of one `elasticarray_truncate` call. -/
theorem truncate_master (EA : EArray) (ok : Bool) (junk : Nat → Nat) :
    ((elasticarray_truncate EA ok junk).1 = false
       ∧ (elasticarray_truncate EA ok junk).2 = EA
       ∧ EA.size ≠ 0 ∧ EA.size < EA.alloc ∧ ok = false)
    ∨ ((elasticarray_truncate EA ok junk).1 = true
       ∧ (elasticarray_truncate EA ok junk).2.size = EA.size
       ∧ ((elasticarray_truncate EA ok junk).2 = ⟨EA.size, 0, []⟩
            ∧ EA.size = 0
          ∨ (elasticarray_truncate EA ok junk).2
              = ⟨EA.size, EA.size, reallocBytes EA.buf EA.size junk⟩
            ∧ EA.size < EA.alloc
          ∨ (elasticarray_truncate EA ok junk).2 = EA
            ∧ EA.alloc ≤ EA.size)) := by
  unfold elasticarray_truncate
  split
  · rename_i h0
    right
    exact ⟨rfl, rfl, Or.inl ⟨by rw [h0], h0⟩⟩
  · rename_i h0
    split
    · rename_i h1
      split
      · rename_i hok
        right
        exact ⟨rfl, rfl, Or.inr (Or.inl ⟨rfl, h1⟩)⟩
      · rename_i hok
        left
        exact ⟨rfl, rfl, h0, h1, by simpa using hok⟩
    · rename_i h1
      right
      exact ⟨rfl, rfl, Or.inr (Or.inr ⟨rfl, by omega⟩)⟩

/-- The branch structure of `elasticarray_shrink`, spelled out. -/
theorem shrink_eq (EA : EArray) (nrec reclen : Nat) (ok : Bool)
    (junk : Nat → Nat) :
    elasticarray_shrink EA nrec reclen ok junk =
      if (resize EA (shrink_nsize EA nrec reclen) ok junk).1 = true then
        (resize EA (shrink_nsize EA nrec reclen) ok junk).2
      else
        ⟨shrink_nsize EA nrec reclen, EA.alloc, EA.buf⟩ := by
  simp only [elasticarray_shrink]
  rcases resize EA (shrink_nsize EA nrec reclen) ok junk with ⟨b, EA1⟩
  cases b <;> simp

/-- Function `elasticarray_shrink` always records the computed target size,
whether or not the internal reallocation succeeded. -/
theorem shrink_size (EA : EArray) (nrec reclen : Nat) (ok : Bool)
    (junk : Nat → Nat) :
    (elasticarray_shrink EA nrec reclen ok junk).size
      = shrink_nsize EA nrec reclen := by
  rw [shrink_eq]
  by_cases h : (resize EA (shrink_nsize EA nrec reclen) ok junk).1 = true
  · rw [if_pos h]
    exact resize_snd_size h
  · rw [if_neg h]

/-- The result state of `elasticarray_shrink`: either the internal
`resize` succeeded and its result is returned, or it failed and only the
size field is updated. -/
theorem shrink_master (EA : EArray) (nrec reclen : Nat) (ok : Bool)
    (junk : Nat → Nat) :
    ((resize EA (shrink_nsize EA nrec reclen) ok junk).1 = true
      ∧ elasticarray_shrink EA nrec reclen ok junk
          = (resize EA (shrink_nsize EA nrec reclen) ok junk).2)
    ∨ ((resize EA (shrink_nsize EA nrec reclen) ok junk).1 = false
      ∧ elasticarray_shrink EA nrec reclen ok junk
          = ⟨shrink_nsize EA nrec reclen, EA.alloc, EA.buf⟩) := by
  by_cases h : (resize EA (shrink_nsize EA nrec reclen) ok junk).1 = true
  · left
    exact ⟨h, by rw [shrink_eq, if_pos h]⟩
  · right
    exact ⟨by simpa using h, by rw [shrink_eq, if_neg h]⟩

theorem memcpyAt_length (dst : List Nat) (pos : Nat) (src : List Nat)
    (h : pos + src.length ≤ dst.length) :
    (memcpyAt dst pos src).length = dst.length := by
  simp [memcpyAt]
  omega

theorem memcpyAt_take (dst : List Nat) (pos : Nat) (src : List Nat)
    (h : pos ≤ dst.length) :
    (memcpyAt dst pos src).take pos = dst.take pos := by
  unfold memcpyAt
  rw [List.take_append_of_le_length (by simp; omega)]
  rw [List.take_append_of_le_length (by simp; omega)]
  rw [List.take_take, min_self]

theorem memcpyAt_middle (dst : List Nat) (pos : Nat) (src : List Nat)
    (h : pos ≤ dst.length) :
    ((memcpyAt dst pos src).drop pos).take src.length = src := by
  have hl : (dst.take pos).length = pos := by simp; omega
  have h2 : (memcpyAt dst pos src).drop pos
      = src ++ dst.drop (pos + src.length) := by
    calc (memcpyAt dst pos src).drop pos
        = ((dst.take pos) ++ (src ++ dst.drop (pos + src.length))).drop
            (dst.take pos).length := by
          rw [hl]; unfold memcpyAt; rw [List.append_assoc]
      _ = src ++ dst.drop (pos + src.length) := List.drop_left _ _
  rw [h2]
  exact List.take_left _ _

/-- The branch structure of `elasticarray_append`, spelled out. -/
theorem append_eq (EA : EArray) (src : List Nat) (n len : Nat) (ok : Bool)
    (junk : Nat → Nat) :
    elasticarray_append EA src n len ok junk =
      if SIZE_MAX / len < n ∨ SIZE_MAX - EA.size < (n * len) % W then
        (false, EA)
      else if (resize EA ((EA.size + (n * len) % W) % W) ok junk).1 = true then
        if 0 < n then
          (true, ⟨(resize EA ((EA.size + (n * len) % W) % W) ok junk).2.size,
                  (resize EA ((EA.size + (n * len) % W) % W) ok junk).2.alloc,
                  memcpyAt
                    (resize EA ((EA.size + (n * len) % W) % W) ok junk).2.buf
                    EA.size (src.take ((n * len) % W))⟩)
        else
          (true, (resize EA ((EA.size + (n * len) % W) % W) ok junk).2)
      else
        (false, EA) := by
  simp only [elasticarray_append]
  split
  · rfl
  · rcases resize EA ((EA.size + (n * len) % W) % W) ok junk with ⟨b, EA1⟩
    cases b
    · simp
    · simp only [if_pos rfl]
      split <;> rfl

/-- Full case analysis of one `elasticarray_append` call on a state whose
size fits in `size_t`: it either fails with the array untouched, or
succeeds; on success the guards guarantee the byte arithmetic was exact,
the internal `resize` succeeded on the exact target `size + n * len`,
and the final buffer is the resized buffer with the source bytes copied
in at the old end (no copy happens for `n = 0`). -/
theorem append_master (EA : EArray) (src : List Nat) (n len : Nat)
    (ok : Bool) (junk : Nat → Nat) (hlen : 0 < len)
    (hsz : EA.size ≤ SIZE_MAX) :
    ((elasticarray_append EA src n len ok junk).1 = false
       ∧ (elasticarray_append EA src n len ok junk).2 = EA)
    ∨ ((elasticarray_append EA src n len ok junk).1 = true
       ∧ EA.size + n * len ≤ SIZE_MAX
       ∧ (resize EA (EA.size + n * len) ok junk).1 = true
       ∧ (elasticarray_append EA src n len ok junk).2.size
           = EA.size + n * len
       ∧ (elasticarray_append EA src n len ok junk).2.alloc
           = resize_nalloc EA.alloc (EA.size + n * len)
       ∧ ((elasticarray_append EA src n len ok junk).2.buf
            = memcpyAt (resize EA (EA.size + n * len) ok junk).2.buf
                EA.size (src.take (n * len)) ∧ 0 < n
          ∨ (elasticarray_append EA src n len ok junk).2.buf
              = (resize EA (EA.size + n * len) ok junk).2.buf ∧ n = 0)) := by
  rw [append_eq]
  by_cases hg : SIZE_MAX / len < n ∨ SIZE_MAX - EA.size < (n * len) % W
  · rw [if_pos hg]
    exact Or.inl ⟨rfl, rfl⟩
  · rw [if_neg hg]
    push_neg at hg
    obtain ⟨hg1, hg2⟩ := hg
    have hnl : n * len ≤ SIZE_MAX := (Nat.le_div_iff_mul_le hlen).mp hg1
    have hmodnl : (n * len) % W = n * len := by
      apply Nat.mod_eq_of_lt
      rw [W_eq]; rw [SIZE_MAX_eq] at hnl; omega
    rw [hmodnl] at hg2
    have hsum : EA.size + n * len ≤ SIZE_MAX := by omega
    have hmodsum : (EA.size + (n * len) % W) % W = EA.size + n * len := by
      rw [hmodnl]
      apply Nat.mod_eq_of_lt
      rw [W_eq]; rw [SIZE_MAX_eq] at hsum; omega
    rw [hmodsum, hmodnl]
    by_cases hr : (resize EA (EA.size + n * len) ok junk).1 = true
    · rw [if_pos hr]
      by_cases hn : 0 < n
      · rw [if_pos hn]
        exact Or.inr ⟨rfl, hsum, hr, resize_snd_size hr, resize_snd_alloc hr,
          Or.inl ⟨rfl, hn⟩⟩
      · rw [if_neg hn]
        exact Or.inr ⟨rfl, hsum, hr, resize_snd_size hr, resize_snd_alloc hr,
          Or.inr ⟨rfl, by omega⟩⟩
    · rw [if_neg hr]
      exact Or.inl ⟨rfl, rfl⟩

/-- The target size of a shrink, divided by the record length, is the
old record count minus the deleted count (clamped at zero). -/
theorem shrink_nsize_div (EA : EArray) (n len : Nat) (hlen : 0 < len)
    (hsz : EA.size ≤ SIZE_MAX) :
    shrink_nsize EA n len / len = EA.size / len - n := by
  unfold shrink_nsize
  split
  · rename_i hcond
    rw [Nat.zero_div]
    rcases hcond with h | h
    · have h2 : EA.size / len ≤ SIZE_MAX / len := Nat.div_le_div_right hsz
      omega
    · have h3 : (n * len) % W ≤ n * len := Nat.mod_le _ _
      have h4 : EA.size / len * len ≤ EA.size := Nat.div_mul_le_self _ _
      have h5 : EA.size / len * len < n * len := by omega
      have h6 : EA.size / len < n := Nat.lt_of_mul_lt_mul_right h5
      omega
  · rename_i hcond
    push_neg at hcond
    obtain ⟨h1, h2⟩ := hcond
    have h3 : n * len ≤ SIZE_MAX := (Nat.le_div_iff_mul_le hlen).mp h1
    have h4 : (n * len) % W = n * len := by
      apply Nat.mod_eq_of_lt
      rw [W_eq]; rw [SIZE_MAX_eq] at h3; omega
    rw [h4]
    rw [h4] at h2
    rw [show n * len = len * n from Nat.mul_comm n len]
    exact Nat.sub_mul_div _ _ _ (by rwa [Nat.mul_comm])

/-- C6: for every buffer (with a `size_t` size) and positive record
length `len`, `shrink(n, len)` never fails (it is a total function of
the state) and afterwards `size(len)` equals the previous count minus
`n`, truncated at zero (`Nat` subtraction is exactly
`max (0, previous_count - n)`); in particular when `n` is at least the
current record count the buffer is emptied. -/
theorem c6_shrink_count : ∀ (EA : EArray) (n len : Nat) (ok : Bool)
    (junk : Nat → Nat), 0 < len → EA.size ≤ SIZE_MAX →
    elasticarray_getsize (elasticarray_shrink EA n len ok junk) len
      = elasticarray_getsize EA len - n
    ∧ (elasticarray_getsize EA len ≤ n →
       elasticarray_getsize (elasticarray_shrink EA n len ok junk) len = 0) := by
  intro EA n len ok junk hlen hsz
  have h1 : elasticarray_getsize (elasticarray_shrink EA n len ok junk) len
      = EA.size / len - n := by
    unfold elasticarray_getsize
    rw [shrink_size, shrink_nsize_div EA n len hlen hsz]
  refine ⟨h1, fun h2 => ?_⟩
  rw [h1]
  unfold elasticarray_getsize at h2
  omega

/-- Witness for C6 at a concrete input: shrinking 1 record of length 4
out of 2 leaves 1 record. -/
theorem c6_witness :
    (0 : Nat) < 4 ∧ (⟨8, 8, [1, 2, 3, 4, 5, 6, 7, 8]⟩ : EArray).size ≤ SIZE_MAX
    ∧ elasticarray_getsize
        (elasticarray_shrink ⟨8, 8, [1, 2, 3, 4, 5, 6, 7, 8]⟩ 1 4 true
          (fun _ => 0)) 4
      = elasticarray_getsize (⟨8, 8, [1, 2, 3, 4, 5, 6, 7, 8]⟩ : EArray) 4 - 1 :=
  ⟨by decide, by decide,
   (c6_shrink_count ⟨8, 8, [1, 2, 3, 4, 5, 6, 7, 8]⟩ 1 4 true (fun _ => 0)
     (by decide) (by decide)).1⟩

/-- C10: when `n * len` would overflow (`n > SIZE_MAX / len`),
`elasticarray_shrink` computes target size `0` and empties the buffer —
it neither fails, nor reports overflow, nor removes a partial amount. -/
theorem c10_shrink_overflow : ∀ (EA : EArray) (n len : Nat) (ok : Bool)
    (junk : Nat → Nat), 0 < len → SIZE_MAX / len < n →
    shrink_nsize EA n len = 0
    ∧ (elasticarray_shrink EA n len ok junk).size = 0
    ∧ elasticarray_getsize (elasticarray_shrink EA n len ok junk) len = 0 := by
  intro EA n len ok junk hlen hov
  have h0 : shrink_nsize EA n len = 0 := by
    unfold shrink_nsize
    rw [if_pos (Or.inl hov)]
  refine ⟨h0, ?_, ?_⟩
  · rw [shrink_size, h0]
  · unfold elasticarray_getsize
    rw [shrink_size, h0, Nat.zero_div]

/-- Witness for C10 at a concrete input: `n = SIZE_MAX`, `len = 2`
overflows and empties the buffer. -/
theorem c10_witness :
    (0 : Nat) < 2 ∧ SIZE_MAX / 2 < SIZE_MAX
    ∧ (elasticarray_shrink ⟨4, 4, [1, 2, 3, 4]⟩ SIZE_MAX 2 true
        (fun _ => 0)).size = 0 :=
  ⟨by decide, by decide,
   (c10_shrink_overflow ⟨4, 4, [1, 2, 3, 4]⟩ SIZE_MAX 2 true (fun _ => 0)
     (by decide) (by decide)).2.1⟩

/-- C9: `elasticarray_iter` invokes the callback once per record, in
ascending index order (the trace of calls is exactly
`fp (0 * len), fp (1 * len), ...`), each receiving the pointer at byte
offset `index * len`, over the record count `size(len)` of the state. -/
theorem c9_iter : ∀ {α : Type} (EA : EArray) (reclen : Nat) (fp : Nat → α),
    0 < reclen → EA.size ≤ SIZE_MAX →
    elasticarray_iter EA reclen fp
      = (List.range (elasticarray_getsize EA reclen)).map
          (fun i => fp (i * reclen))
    ∧ (elasticarray_iter EA reclen fp).length
        = elasticarray_getsize EA reclen := by
  intro α EA reclen fp hlen hsz
  constructor
  · unfold elasticarray_iter
    apply List.map_congr_left
    intro i hi
    rw [List.mem_range] at hi
    congr 1
    unfold elasticarray_get
    rw [Nat.mul_comm]
    apply Nat.mod_eq_of_lt
    unfold elasticarray_getsize at hi
    have h1 : (i + 1) * reclen ≤ EA.size := by
      calc (i + 1) * reclen ≤ (EA.size / reclen) * reclen :=
            Nat.mul_le_mul_right _ hi
        _ ≤ EA.size := Nat.div_mul_le_self _ _
    have h2 : i * reclen < (i + 1) * reclen :=
      (Nat.mul_lt_mul_right hlen).mpr (Nat.lt_succ_self i)
    rw [W_eq]
    rw [SIZE_MAX_eq] at hsz
    omega
  · unfold elasticarray_iter
    simp

/-- Witness for C9 at a concrete input: two 4-byte records are visited
at offsets 0 and 4, in order. -/
theorem c9_witness :
    (0 : Nat) < 4 ∧ (⟨8, 8, [1, 2, 3, 4, 5, 6, 7, 8]⟩ : EArray).size ≤ SIZE_MAX
    ∧ elasticarray_iter (⟨8, 8, [1, 2, 3, 4, 5, 6, 7, 8]⟩ : EArray) 4
        (fun off => off)
      = (List.range
          (elasticarray_getsize (⟨8, 8, [1, 2, 3, 4, 5, 6, 7, 8]⟩ : EArray) 4)).map
          (fun i => i * 4) :=
  ⟨by decide, by decide,
   (c9_iter ⟨8, 8, [1, 2, 3, 4, 5, 6, 7, 8]⟩ 4 (fun off => off)
     (by decide) (by decide)).1⟩

/-- C4: when the byte-size computation overflows (`n * len` exceeds
`SIZE_MAX`; for append, when `size + n * len` exceeds `SIZE_MAX`),
construct creates nothing, and resize/append fail leaving size,
allocation and storage untouched, independently of the allocator (no
allocation is performed); in particular `n = SIZE_MAX`, `len = 2` fails
this way for construct, resize and append. -/
theorem c4_overflow :
    (∀ (n len : Nat) (okm ok : Bool) (junk : Nat → Nat), 0 < len →
       SIZE_MAX < n * len → elasticarray_init n len okm ok junk = none)
    ∧ (∀ (EA : EArray) (n len : Nat) (ok : Bool) (junk : Nat → Nat),
       0 < len → SIZE_MAX < n * len →
       elasticarray_resize EA n len ok junk = (false, EA))
    ∧ (∀ (EA : EArray) (src : List Nat) (n len : Nat) (ok : Bool)
        (junk : Nat → Nat), 0 < len → EA.size ≤ SIZE_MAX →
       SIZE_MAX < EA.size + n * len →
       elasticarray_append EA src n len ok junk = (false, EA))
    ∧ (∀ (okm ok : Bool) (junk : Nat → Nat),
       elasticarray_init SIZE_MAX 2 okm ok junk = none)
    ∧ (∀ (EA : EArray) (ok : Bool) (junk : Nat → Nat),
       elasticarray_resize EA SIZE_MAX 2 ok junk = (false, EA))
    ∧ (∀ (EA : EArray) (src : List Nat) (ok : Bool) (junk : Nat → Nat),
       elasticarray_append EA src SIZE_MAX 2 ok junk = (false, EA)) := by
  have hres : ∀ (EA : EArray) (n len : Nat) (ok : Bool) (junk : Nat → Nat),
      0 < len → SIZE_MAX < n * len →
      elasticarray_resize EA n len ok junk = (false, EA) := by
    intro EA n len ok junk hlen hov
    unfold elasticarray_resize
    rw [if_pos ((Nat.div_lt_iff_lt_mul hlen).mpr hov)]
  have hinit : ∀ (n len : Nat) (okm ok : Bool) (junk : Nat → Nat), 0 < len →
      SIZE_MAX < n * len → elasticarray_init n len okm ok junk = none := by
    intro n len okm ok junk hlen hov
    unfold elasticarray_init
    rw [hres ⟨0, 0, []⟩ n len ok junk hlen hov]
    cases okm <;> rfl
  have happ : ∀ (EA : EArray) (src : List Nat) (n len : Nat) (ok : Bool)
      (junk : Nat → Nat), 0 < len → EA.size ≤ SIZE_MAX →
      SIZE_MAX < EA.size + n * len →
      elasticarray_append EA src n len ok junk = (false, EA) := by
    intro EA src n len ok junk hlen hsz hov
    have hguard : SIZE_MAX / len < n ∨ SIZE_MAX - EA.size < (n * len) % W := by
      by_cases h1 : SIZE_MAX / len < n
      · exact Or.inl h1
      · push_neg at h1
        have h2 : n * len ≤ SIZE_MAX := (Nat.le_div_iff_mul_le hlen).mp h1
        have h3 : (n * len) % W = n * len := by
          apply Nat.mod_eq_of_lt
          rw [W_eq]; rw [SIZE_MAX_eq] at h2; omega
        rw [h3]
        right
        omega
    unfold elasticarray_append
    rw [if_pos hguard]
  refine ⟨hinit, hres, happ, ?_, ?_, ?_⟩
  · intro okm ok junk
    exact hinit SIZE_MAX 2 okm ok junk (by decide) (by rw [SIZE_MAX_eq]; omega)
  · intro EA ok junk
    exact hres EA SIZE_MAX 2 ok junk (by decide) (by rw [SIZE_MAX_eq]; omega)
  · intro EA src ok junk
    unfold elasticarray_append
    rw [if_pos (Or.inl (by rw [SIZE_MAX_eq]; norm_num))]

/-- Witness for C4 at concrete inputs. -/
theorem c4_witness :
    ((0 : Nat) < 2 ∧ SIZE_MAX < SIZE_MAX * 2
      ∧ elasticarray_init SIZE_MAX 2 true true (fun _ => 0) = none)
    ∧ ((0 : Nat) < 2
      ∧ (⟨4, 4, [9, 9, 9, 9]⟩ : EArray).size ≤ SIZE_MAX
      ∧ SIZE_MAX < (⟨4, 4, [9, 9, 9, 9]⟩ : EArray).size + SIZE_MAX * 2
      ∧ elasticarray_append ⟨4, 4, [9, 9, 9, 9]⟩ [1, 2] SIZE_MAX 2 true
          (fun _ => 0) = (false, ⟨4, 4, [9, 9, 9, 9]⟩)) :=
  ⟨⟨by decide, by rw [SIZE_MAX_eq]; omega,
    c4_overflow.1 SIZE_MAX 2 true true (fun _ => 0) (by decide)
      (by rw [SIZE_MAX_eq]; omega)⟩,
   ⟨by decide, by decide, by rw [SIZE_MAX_eq]; norm_num,
    c4_overflow.2.2.1 ⟨4, 4, [9, 9, 9, 9]⟩ [1, 2] SIZE_MAX 2 true (fun _ => 0)
      (by decide) (by decide) (by rw [SIZE_MAX_eq]; norm_num)⟩⟩

/-- C2: when the internal reallocation fails (`ok = false` while a
reallocation was actually attempted, i.e. the computed allocation size
is nonzero and differs from the current one), `elasticarray_resize`,
`elasticarray_append`, construct (`elasticarray_init`) and
`elasticarray_truncate` report failure and leave size, allocation and
storage exactly as before (construct creates nothing); while
`elasticarray_shrink` does not fail: it always records the computed
target size, and on reallocation failure keeps the old, larger
allocation. -/
theorem c2_realloc_failure :
    (∀ (EA : EArray) (n len : Nat) (junk : Nat → Nat),
       ¬ SIZE_MAX / len < n →
       resize_nalloc EA.alloc ((n * len) % W) ≠ 0 →
       resize_nalloc EA.alloc ((n * len) % W) ≠ EA.alloc →
       elasticarray_resize EA n len false junk = (false, EA))
    ∧ (∀ (EA : EArray) (src : List Nat) (n len : Nat) (junk : Nat → Nat),
       ¬ (SIZE_MAX / len < n ∨ SIZE_MAX - EA.size < (n * len) % W) →
       resize_nalloc EA.alloc ((EA.size + (n * len) % W) % W) ≠ 0 →
       resize_nalloc EA.alloc ((EA.size + (n * len) % W) % W) ≠ EA.alloc →
       elasticarray_append EA src n len false junk = (false, EA))
    ∧ (∀ (n len : Nat) (junk : Nat → Nat),
       ¬ SIZE_MAX / len < n →
       resize_nalloc 0 ((n * len) % W) ≠ 0 →
       elasticarray_init n len true false junk = none)
    ∧ (∀ (EA : EArray) (junk : Nat → Nat),
       EA.size ≠ 0 → EA.size < EA.alloc →
       elasticarray_truncate EA false junk = (false, EA))
    ∧ (∀ (EA : EArray) (n len : Nat) (ok : Bool) (junk : Nat → Nat),
       (elasticarray_shrink EA n len ok junk).size = shrink_nsize EA n len)
    ∧ (∀ (EA : EArray) (n len : Nat) (junk : Nat → Nat),
       resize_nalloc EA.alloc (shrink_nsize EA n len) ≠ 0 →
       resize_nalloc EA.alloc (shrink_nsize EA n len) ≠ EA.alloc →
       elasticarray_shrink EA n len false junk
         = ⟨shrink_nsize EA n len, EA.alloc, EA.buf⟩) := by
  have hfail : ∀ (EA : EArray) (T : Nat) (junk : Nat → Nat),
      resize_nalloc EA.alloc T ≠ 0 → resize_nalloc EA.alloc T ≠ EA.alloc →
      resize EA T false junk = (false, EA) := by
    intro EA T junk h0 hne
    rw [resize_eq, if_neg h0, if_pos hne, if_neg Bool.false_ne_true]
  refine ⟨?_, ?_, ?_, ?_, ?_, ?_⟩
  · intro EA n len junk hg h0 hne
    unfold elasticarray_resize
    rw [if_neg hg]
    exact hfail EA _ junk h0 hne
  · intro EA src n len junk hg h0 hne
    unfold elasticarray_append
    rw [if_neg hg, hfail EA _ junk h0 hne]
  · intro n len junk hg h0
    unfold elasticarray_init
    rw [if_pos rfl]
    unfold elasticarray_resize
    rw [if_neg hg, hfail ⟨0, 0, []⟩ _ junk h0 h0]
  · intro EA junk h0 h1
    unfold elasticarray_truncate
    rw [if_neg h0, if_pos h1, if_neg Bool.false_ne_true]
  · intro EA n len ok junk
    exact shrink_size EA n len ok junk
  · intro EA n len junk h0 hne
    rcases shrink_master EA n len false junk with ⟨hs, _⟩ | ⟨_, hb⟩
    · rw [hfail EA _ junk h0 hne] at hs
      simp at hs
    · exact hb

/-- Witness for C2 at concrete inputs: a growing resize with the
allocator refusing fails unchanged; a shrink with the allocator refusing
still records the target size and keeps the old allocation. -/
theorem c2_witness :
    (¬ SIZE_MAX / 1 < 1
      ∧ resize_nalloc (⟨0, 0, []⟩ : EArray).alloc ((1 * 1) % W) ≠ 0
      ∧ resize_nalloc (⟨0, 0, []⟩ : EArray).alloc ((1 * 1) % W)
          ≠ (⟨0, 0, []⟩ : EArray).alloc
      ∧ elasticarray_resize ⟨0, 0, []⟩ 1 1 false (fun _ => 0)
          = (false, ⟨0, 0, []⟩))
    ∧ (resize_nalloc (⟨2, 8, [1, 2, 3, 4, 5, 6, 7, 8]⟩ : EArray).alloc
          (shrink_nsize ⟨2, 8, [1, 2, 3, 4, 5, 6, 7, 8]⟩ 1 1) ≠ 0
      ∧ resize_nalloc (⟨2, 8, [1, 2, 3, 4, 5, 6, 7, 8]⟩ : EArray).alloc
          (shrink_nsize ⟨2, 8, [1, 2, 3, 4, 5, 6, 7, 8]⟩ 1 1)
          ≠ (⟨2, 8, [1, 2, 3, 4, 5, 6, 7, 8]⟩ : EArray).alloc
      ∧ elasticarray_shrink ⟨2, 8, [1, 2, 3, 4, 5, 6, 7, 8]⟩ 1 1 false
          (fun _ => 0)
        = ⟨shrink_nsize ⟨2, 8, [1, 2, 3, 4, 5, 6, 7, 8]⟩ 1 1, 8,
           [1, 2, 3, 4, 5, 6, 7, 8]⟩) :=
  ⟨⟨by decide, by decide, by decide,
    c2_realloc_failure.1 ⟨0, 0, []⟩ 1 1 (fun _ => 0) (by decide) (by decide)
      (by decide)⟩,
   ⟨by decide, by decide,
    c2_realloc_failure.2.2.2.2.2 ⟨2, 8, [1, 2, 3, 4, 5, 6, 7, 8]⟩ 1 1
      (fun _ => 0) (by decide) (by decide)⟩⟩

/-- The branch structure of `elasticarray_export`, spelled out. -/
theorem export_eq (EA : EArray) (reclen : Nat) (ok : Bool)
    (junk : Nat → Nat) :
    elasticarray_export EA reclen ok junk =
      if (elasticarray_truncate EA ok junk).1 = true then
        (some ((elasticarray_truncate EA ok junk).2.buf,
               elasticarray_getsize (elasticarray_truncate EA ok junk).2 reclen),
         (elasticarray_truncate EA ok junk).2)
      else
        (none, (elasticarray_truncate EA ok junk).2) := by
  simp only [elasticarray_export]
  rcases elasticarray_truncate EA ok junk with ⟨b, EA1⟩
  cases b <;> simp

/-- C7: `elasticarray_export` first truncates; if the truncation's
reallocation fails the export fails and the array is byte-for-byte
unchanged; on success the returned record count equals `size(len)`
immediately before the export, and the returned buffer is the (now
truncated) backing allocation itself — its first `size` bytes are the
array's content; only the wrapper is discarded. -/
theorem c7_export :
    (∀ (EA : EArray) (reclen : Nat) (ok : Bool) (junk : Nat → Nat),
       (elasticarray_export EA reclen ok junk).1 = none →
       (elasticarray_export EA reclen ok junk).2 = EA)
    ∧ (∀ (EA : EArray) (reclen : Nat) (ok : Bool) (junk : Nat → Nat)
        (b : List Nat) (cnt : Nat) (EA1 : EArray),
       elasticarray_export EA reclen ok junk = (some (b, cnt), EA1) →
       cnt = elasticarray_getsize EA reclen
       ∧ b = EA1.buf
       ∧ EA1.size = EA.size
       ∧ (Inv EA → b.take EA.size = EA.buf.take EA.size)) := by
  constructor
  · intro EA reclen ok junk h
    rw [export_eq] at h ⊢
    by_cases ht : (elasticarray_truncate EA ok junk).1 = true
    · rw [if_pos ht] at h
      simp at h
    · rw [if_neg ht]
      rcases truncate_master EA ok junk with ⟨_, h2, _⟩ | ⟨h1, _⟩
      · simpa using h2
      · exact absurd h1 ht
  · intro EA reclen ok junk b cnt EA1 h
    rw [export_eq] at h
    by_cases ht : (elasticarray_truncate EA ok junk).1 = true
    · rw [if_pos ht] at h
      have hfst := congrArg Prod.fst h
      have hsnd := congrArg Prod.snd h
      simp only [] at hfst hsnd
      rw [Option.some_inj] at hfst
      have hb : (elasticarray_truncate EA ok junk).2.buf = b :=
        congrArg Prod.fst hfst
      have hcnt : elasticarray_getsize (elasticarray_truncate EA ok junk).2
          reclen = cnt := congrArg Prod.snd hfst
      rcases truncate_master EA ok junk with ⟨h1, _⟩ | ⟨_, hsize, hc⟩
      · simp [h1] at ht
      refine ⟨?_, ?_, ?_, ?_⟩
      · rw [← hcnt]
        unfold elasticarray_getsize
        rw [hsize]
      · rw [← hb, hsnd]
      · rw [← hsnd, hsize]
      · intro hInv
        rw [← hb]
        rcases hc with ⟨he, h0⟩ | ⟨he, hlt⟩ | ⟨he, hle⟩
        · rw [he, h0]
          simp
        · rw [he]
          exact reallocBytes_take EA.buf EA.size EA.size junk (Nat.le_refl _)
            (by rw [hInv.2.1]; exact hInv.1)
        · rw [he]
    · rw [if_neg ht] at h
      have hfst := congrArg Prod.fst h
      simp at hfst

/-- Witness for C7 at a concrete input: exporting a 1-record array with
spare space truncates to 4 bytes, returns count 1 and the content. -/
theorem c7_witness :
    elasticarray_export ⟨4, 8, [1, 2, 3, 4, 5, 6, 7, 8]⟩ 4 true (fun _ => 0)
      = (some ([1, 2, 3, 4], 1), ⟨4, 4, [1, 2, 3, 4]⟩)
    ∧ (1 : Nat) = elasticarray_getsize (⟨4, 8, [1, 2, 3, 4, 5, 6, 7, 8]⟩ : EArray) 4
    ∧ ([1, 2, 3, 4] : List Nat) = (⟨4, 4, [1, 2, 3, 4]⟩ : EArray).buf
    ∧ (⟨4, 4, [1, 2, 3, 4]⟩ : EArray).size
        = (⟨4, 8, [1, 2, 3, 4, 5, 6, 7, 8]⟩ : EArray).size
    ∧ (Inv ⟨4, 8, [1, 2, 3, 4, 5, 6, 7, 8]⟩ →
       ([1, 2, 3, 4] : List Nat).take (⟨4, 8, [1, 2, 3, 4, 5, 6, 7, 8]⟩ : EArray).size
         = (⟨4, 8, [1, 2, 3, 4, 5, 6, 7, 8]⟩ : EArray).buf.take
             (⟨4, 8, [1, 2, 3, 4, 5, 6, 7, 8]⟩ : EArray).size) :=
  ⟨by decide,
   c7_export.2 ⟨4, 8, [1, 2, 3, 4, 5, 6, 7, 8]⟩ 4 true (fun _ => 0)
     [1, 2, 3, 4] 1 ⟨4, 4, [1, 2, 3, 4]⟩ (by decide)⟩

/-- C8: a successful `elasticarray_truncate` leaves the allocation
exactly equal to the logical size, releasing the storage entirely when
the logical size is zero, and changes neither the logical size nor the
content; in particular construct(10, 8) followed by truncate yields
allocation exactly 80. -/
theorem c8_truncate :
    (∀ (EA : EArray) (ok : Bool) (junk : Nat → Nat), Inv EA →
       (elasticarray_truncate EA ok junk).1 = true →
       (elasticarray_truncate EA ok junk).2.alloc
           = (elasticarray_truncate EA ok junk).2.size
       ∧ (elasticarray_truncate EA ok junk).2.size = EA.size
       ∧ (elasticarray_truncate EA ok junk).2.buf.take EA.size
           = EA.buf.take EA.size
       ∧ (EA.size = 0 → (elasticarray_truncate EA ok junk).2.alloc = 0
           ∧ (elasticarray_truncate EA ok junk).2.buf = []))
    ∧ (∀ (junk : Nat → Nat) (okm : Bool) (EA1 : EArray),
       elasticarray_init 10 8 okm true junk = some EA1 →
       (elasticarray_truncate EA1 true junk).2.alloc = 80) := by
  constructor
  · intro EA ok junk hInv hsucc
    rcases truncate_master EA ok junk with ⟨hf, _⟩ | ⟨_, hsize, hc⟩
    · rw [hf] at hsucc
      cases hsucc
    rcases hc with ⟨he, h0⟩ | ⟨he, hlt⟩ | ⟨he, hle⟩
    · rw [he]
      refine ⟨by simpa using h0.symm, rfl, by rw [h0]; simp, fun _ => ⟨rfl, rfl⟩⟩
    · rw [he]
      refine ⟨rfl, rfl, ?_, ?_⟩
      · exact reallocBytes_take EA.buf EA.size EA.size junk (Nat.le_refl _)
          (by rw [hInv.2.1]; exact hInv.1)
      · intro h0
        refine ⟨h0, ?_⟩
        rw [h0]
        simp [reallocBytes]
    · rw [he]
      have heq : EA.alloc = EA.size := Nat.le_antisymm hle hInv.1
      refine ⟨heq, rfl, rfl, fun h0 => ⟨by omega, ?_⟩⟩
      apply List.length_eq_zero.mp
      rw [hInv.2.1]
      omega
  · intro junk okm EA1 h
    cases okm
    · simp [elasticarray_init] at h
    · have hnal : resize_nalloc (0 : Nat) 80 = 80 := by decide
      have hcomp : elasticarray_resize ⟨0, 0, []⟩ 10 8 true junk
          = (true, ⟨80, 80, reallocBytes [] 80 junk⟩) := by
        unfold elasticarray_resize
        rw [if_neg (by decide)]
        rw [show ((10 * 8) % W : Nat) = 80 from by decide]
        rw [resize_eq]
        show (if resize_nalloc (0 : Nat) 80 = 0 then _ else _) = _
        rw [hnal]
        rw [if_neg (by decide), if_pos (by decide), if_pos rfl]
      unfold elasticarray_init at h
      rw [if_pos rfl, hcomp] at h
      have hEA1 : EA1 = ⟨80, 80, reallocBytes [] 80 junk⟩ := by
        injection h with h2
        exact h2.symm
      rw [hEA1]
      unfold elasticarray_truncate
      rw [if_neg (by simp), if_neg (by simp)]

/-- Witness for C8 at a concrete input: truncating a 4-byte array with
8 bytes allocated reallocates down to exactly 4 bytes. -/
theorem c8_witness :
    (Inv ⟨4, 8, [1, 2, 3, 4, 5, 6, 7, 8]⟩
      ∧ (elasticarray_truncate ⟨4, 8, [1, 2, 3, 4, 5, 6, 7, 8]⟩ true
          (fun _ => 0)).1 = true
      ∧ (elasticarray_truncate ⟨4, 8, [1, 2, 3, 4, 5, 6, 7, 8]⟩ true
          (fun _ => 0)).2.alloc
        = (elasticarray_truncate ⟨4, 8, [1, 2, 3, 4, 5, 6, 7, 8]⟩ true
            (fun _ => 0)).2.size)
    ∧ (∀ EA1, elasticarray_init 10 8 true true (fun _ => 0) = some EA1 →
        (elasticarray_truncate EA1 true (fun _ => 0)).2.alloc = 80) :=
  ⟨⟨by decide, by decide,
    (c8_truncate.1 ⟨4, 8, [1, 2, 3, 4, 5, 6, 7, 8]⟩ true (fun _ => 0)
      (by decide) (by decide)).1⟩,
   fun EA1 h => c8_truncate.2 (fun _ => 0) true EA1 h⟩

theorem resize_nalloc_zero (T : Nat) : resize_nalloc 0 T = T := by
  unfold resize_nalloc
  by_cases h : 0 < T
  · rw [if_pos h, if_pos (by simpa using h)]
  · have hT : T = 0 := by omega
    subst hT
    decide

/-- A successful `elasticarray_init` yields an exactly-sized array. -/
theorem init_success {n len : Nat} {okm ok : Bool} {junk : Nat → Nat}
    {EA1 : EArray} (hlen : 0 < len)
    (h : elasticarray_init n len okm ok junk = some EA1) :
    EA1.size = n * len ∧ EA1.alloc = n * len ∧ EA1.buf.length = n * len
    ∧ n * len ≤ SIZE_MAX := by
  unfold elasticarray_init at h
  cases okm
  · simp at h
  · rw [if_pos rfl] at h
    rcases hr : elasticarray_resize ⟨0, 0, []⟩ n len ok junk with ⟨b, EA2⟩
    rw [hr] at h
    cases b
    · simp at h
    · simp only [Option.some_inj] at h
      subst h
      unfold elasticarray_resize at hr
      by_cases hg : SIZE_MAX / len < n
      · rw [if_pos hg] at hr
        cases hr
      · rw [if_neg hg] at hr
        push_neg at hg
        have hnl : n * len ≤ SIZE_MAX := (Nat.le_div_iff_mul_le hlen).mp hg
        have hmod : (n * len) % W = n * len := by
          apply Nat.mod_eq_of_lt
          rw [W_eq]; rw [SIZE_MAX_eq] at hnl; omega
        rw [hmod] at hr
        have hs : (resize ⟨0, 0, []⟩ (n * len) ok junk).1 = true := by
          rw [hr]
        have h1 := resize_snd_size hs
        have h2 := resize_snd_alloc hs
        have h3 := resize_snd_buflen rfl hs
        rw [hr] at h1 h2 h3
        rw [resize_nalloc_zero] at h2 h3
        exact ⟨h1, h2, h3, hnl⟩

/-- Function `elasticarray_truncate` preserves the structural invariant, and a
successful truncate satisfies the 4x bound. -/
theorem truncate_inv (EA : EArray) (ok : Bool) (junk : Nat → Nat)
    (hInv : Inv EA) :
    Inv (elasticarray_truncate EA ok junk).2
    ∧ ((elasticarray_truncate EA ok junk).1 = true →
       0 < (elasticarray_truncate EA ok junk).2.size →
       (elasticarray_truncate EA ok junk).2.alloc
         ≤ 4 * (elasticarray_truncate EA ok junk).2.size) := by
  rcases truncate_master EA ok junk with ⟨hf, he, _⟩ | ⟨ht, hsize, hc⟩
  · rw [he]
    exact ⟨hInv, fun hs => by simp [hf] at hs⟩
  · rcases hc with ⟨he, h0⟩ | ⟨he, hlt⟩ | ⟨he, hle⟩
    · rw [he]
      constructor
      · exact ⟨by simp [h0], by simp, Nat.zero_le _⟩
      · intro _ hpos
        simp at hpos
        omega
    · rw [he]
      constructor
      · exact ⟨Nat.le_refl _, reallocBytes_length _ _ _,
          le_trans hInv.1 hInv.2.2⟩
      · intro _ hpos
        simp
        omega
    · rw [he]
      exact ⟨hInv, fun _ hpos => by omega⟩

/-- C1 as stated is refuted by the code: on the invariant-satisfying
state `EAbig` (`logical_size = 2^62`, `allocated_size = 2^63`), the
public operation `elasticarray_resize(EA, 2^63, 1)` passes the overflow
check, then inside `resize` the products `nsize * 4` and `nsize * 2`
wrap to `0` in `size_t`, so the code frees the buffer, records
`logical_size = 2^63 > allocated_size = 0` — and reports success. -/
theorem c1_counterexample :
    Inv4 EAbig
    ∧ (elasticarray_resize EAbig (2 ^ 63) 1 true (fun _ => 0)).1 = true
    ∧ ¬ ((elasticarray_resize EAbig (2 ^ 63) 1 true (fun _ => 0)).2.size
          ≤ (elasticarray_resize EAbig (2 ^ 63) 1 true (fun _ => 0)).2.alloc) := by
  refine ⟨⟨⟨?_, ?_, ?_⟩, ?_⟩, ?_, ?_⟩
  · show EAbig.size ≤ EAbig.alloc
    decide
  · show EAbig.buf.length = EAbig.alloc
    show (List.replicate (2 ^ 63) 0).length = 2 ^ 63
    rw [List.length_replicate]
  · show EAbig.alloc ≤ SIZE_MAX
    decide
  · intro _
    show EAbig.alloc ≤ 4 * EAbig.size
    decide
  · decide
  · decide

/-- C1 amended: for every public operation whose target byte size stays
below `2 ^ 63` (construct is safe for every target; resize needs
`n * len < 2^63`; append needs `size + n * len < 2^63`; shrink needs the
current `size < 2^63`; truncate, export and export-copy are safe for
every state), starting from a state satisfying the invariants, the state
after the operation satisfies the structural invariant (in particular
`logical_size ≤ allocated_size`), and after success,
`allocated_size ≤ 4 × logical_size` holds whenever `logical_size > 0` —
except following a shrink whose internal reallocation failed, for which
only the structural invariant is asserted. -/
theorem c1_amended :
    (∀ (n len : Nat) (okm ok : Bool) (junk : Nat → Nat) (EA1 : EArray),
       0 < len → elasticarray_init n len okm ok junk = some EA1 →
       Inv EA1 ∧ (0 < EA1.size → EA1.alloc ≤ 4 * EA1.size))
    ∧ (∀ (EA : EArray) (n len : Nat) (ok : Bool) (junk : Nat → Nat),
       Inv4 EA → 0 < len → n * len < 2 ^ 63 →
       Inv (elasticarray_resize EA n len ok junk).2
       ∧ ((elasticarray_resize EA n len ok junk).1 = true →
          0 < (elasticarray_resize EA n len ok junk).2.size →
          (elasticarray_resize EA n len ok junk).2.alloc
            ≤ 4 * (elasticarray_resize EA n len ok junk).2.size))
    ∧ (∀ (EA : EArray) (src : List Nat) (n len : Nat) (ok : Bool)
        (junk : Nat → Nat),
       Inv4 EA → 0 < len → EA.size + n * len < 2 ^ 63 →
       Inv (elasticarray_append EA src n len ok junk).2
       ∧ ((elasticarray_append EA src n len ok junk).1 = true →
          0 < (elasticarray_append EA src n len ok junk).2.size →
          (elasticarray_append EA src n len ok junk).2.alloc
            ≤ 4 * (elasticarray_append EA src n len ok junk).2.size))
    ∧ (∀ (EA : EArray) (n len : Nat) (ok : Bool) (junk : Nat → Nat),
       Inv4 EA → 0 < len → EA.size < 2 ^ 63 →
       Inv (elasticarray_shrink EA n len ok junk)
       ∧ ((resize EA (shrink_nsize EA n len) ok junk).1 = true →
          0 < (elasticarray_shrink EA n len ok junk).size →
          (elasticarray_shrink EA n len ok junk).alloc
            ≤ 4 * (elasticarray_shrink EA n len ok junk).size))
    ∧ (∀ (EA : EArray) (ok : Bool) (junk : Nat → Nat), Inv4 EA →
       Inv (elasticarray_truncate EA ok junk).2
       ∧ ((elasticarray_truncate EA ok junk).1 = true →
          0 < (elasticarray_truncate EA ok junk).2.size →
          (elasticarray_truncate EA ok junk).2.alloc
            ≤ 4 * (elasticarray_truncate EA ok junk).2.size))
    ∧ (∀ (EA : EArray) (reclen : Nat) (ok : Bool) (junk : Nat → Nat),
       Inv4 EA →
       Inv (elasticarray_export EA reclen ok junk).2
       ∧ ((elasticarray_export EA reclen ok junk).1 ≠ none →
          0 < (elasticarray_export EA reclen ok junk).2.size →
          (elasticarray_export EA reclen ok junk).2.alloc
            ≤ 4 * (elasticarray_export EA reclen ok junk).2.size))
    ∧ (∀ (EA : EArray) (reclen : Nat) (okm : Bool), Inv4 EA →
       Inv (elasticarray_exportdup EA reclen okm).2
       ∧ ((elasticarray_exportdup EA reclen okm).1 ≠ none →
          0 < (elasticarray_exportdup EA reclen okm).2.size →
          (elasticarray_exportdup EA reclen okm).2.alloc
            ≤ 4 * (elasticarray_exportdup EA reclen okm).2.size)) := by
  refine ⟨?_, ?_, ?_, ?_, ?_, ?_, ?_⟩
  · -- construct
    intro n len okm ok junk EA1 hlen h
    obtain ⟨h1, h2, h3, h4⟩ := init_success hlen h
    refine ⟨⟨by omega, by omega, by omega⟩, fun _ => by omega⟩
  · -- resize
    intro EA n len ok junk hInv4 hlen hb
    obtain ⟨hInv, _⟩ := hInv4
    unfold elasticarray_resize
    by_cases hg : SIZE_MAX / len < n
    · rw [if_pos hg]
      exact ⟨hInv, fun hs => by simp at hs⟩
    · rw [if_neg hg]
      have hmod : (n * len) % W = n * len := by
        apply Nat.mod_eq_of_lt
        rw [W_eq]; rw [pow63_eq] at hb; omega
      rw [hmod]
      refine ⟨resize_inv hInv hb, fun hs hpos => ?_⟩
      calc (resize EA (n * len) ok junk).2.alloc
          ≤ 4 * (n * len) := resize_bound4 hs
        _ = 4 * (resize EA (n * len) ok junk).2.size := by
            rw [resize_snd_size hs]
  · -- append
    intro EA src n len ok junk hInv4 hlen hb
    obtain ⟨hInv, _⟩ := hInv4
    have hsz : EA.size ≤ SIZE_MAX := le_trans hInv.1 hInv.2.2
    rcases append_master EA src n len ok junk hlen hsz with ⟨hf, he⟩ | hm
    · rw [he]
      exact ⟨hInv, fun hs => by simp [hf] at hs⟩
    · obtain ⟨ht, hsum, hr, hsize, halloc, hbuf⟩ := hm
      have hge := resize_nalloc_ge (A := EA.alloc) hb
      constructor
      · refine ⟨?_, ?_, ?_⟩
        · rw [hsize, halloc]
          exact hge
        · have hRlen : (resize EA (EA.size + n * len) ok junk).2.buf.length
              = resize_nalloc EA.alloc (EA.size + n * len) :=
            resize_snd_buflen hInv.2.1 hr
          rw [halloc]
          rcases hbuf with ⟨hbf, hn⟩ | ⟨hbf, hn⟩
          · rw [hbf, memcpyAt_length]
            · exact hRlen
            · have h5 : (src.take (n * len)).length ≤ n * len := by simp
              omega
          · rw [hbf]
            exact hRlen
        · rw [halloc]
          have hA : EA.alloc < W := by
            have := hInv.2.2; rw [SIZE_MAX_eq] at this; rw [W_eq]; omega
          have hTW : EA.size + n * len < W := by
            rw [W_eq]; rw [pow63_eq] at hb; omega
          have := resize_nalloc_lt_W hA hTW
          rw [SIZE_MAX_eq]; rw [W_eq] at this; omega
      · intro _ hpos
        rw [hsize, halloc]
        exact resize_nalloc_le4 EA.alloc (EA.size + n * len)
  · -- shrink
    intro EA n len ok junk hInv4 hlen hb
    obtain ⟨hInv, _⟩ := hInv4
    have hns : shrink_nsize EA n len ≤ EA.size := by
      unfold shrink_nsize
      split
      · omega
      · omega
    have hT : shrink_nsize EA n len < 2 ^ 63 := lt_of_le_of_lt hns hb
    rcases shrink_master EA n len ok junk with ⟨hr, he⟩ | ⟨hr, he⟩
    · rw [he]
      refine ⟨resize_inv hInv hT, fun _ hpos => ?_⟩
      calc (resize EA (shrink_nsize EA n len) ok junk).2.alloc
          ≤ 4 * shrink_nsize EA n len := resize_bound4 hr
        _ = 4 * (resize EA (shrink_nsize EA n len) ok junk).2.size := by
            rw [resize_snd_size hr]
    · rw [he]
      constructor
      · exact ⟨le_trans hns hInv.1, hInv.2.1, hInv.2.2⟩
      · intro hs
        simp [hr] at hs
  · -- truncate
    intro EA ok junk hInv4
    exact truncate_inv EA ok junk hInv4.1
  · -- export
    intro EA reclen ok junk hInv4
    obtain ⟨hInv, _⟩ := hInv4
    have hsnd : (elasticarray_export EA reclen ok junk).2
        = (elasticarray_truncate EA ok junk).2 := by
      rw [export_eq]
      split <;> rfl
    have hsucc : (elasticarray_export EA reclen ok junk).1 ≠ none →
        (elasticarray_truncate EA ok junk).1 = true := by
      intro h
      by_cases ht : (elasticarray_truncate EA ok junk).1 = true
      · exact ht
      · rw [export_eq, if_neg ht] at h
        simp at h
    rw [hsnd]
    obtain ⟨hi, hbound⟩ := truncate_inv EA ok junk hInv
    exact ⟨hi, fun h hpos => hbound (hsucc h) hpos⟩
  · -- exportdup
    intro EA reclen okm hInv4
    obtain ⟨hInv, h4x⟩ := hInv4
    have hsnd : (elasticarray_exportdup EA reclen okm).2 = EA := by
      unfold elasticarray_exportdup
      split <;> rfl
    rw [hsnd]
    exact ⟨hInv, fun _ hpos => h4x hpos⟩

/-- Witness for the amended C1 at concrete inputs: one instantiation of
every conjunct, with all hypotheses discharged by evaluation. -/
theorem c1_witness :
    (Inv ⟨6, 6, [0, 0, 0, 0, 0, 0]⟩
      ∧ (⟨6, 6, [0, 0, 0, 0, 0, 0]⟩ : EArray).alloc
          ≤ 4 * (⟨6, 6, [0, 0, 0, 0, 0, 0]⟩ : EArray).size)
    ∧ (Inv (elasticarray_resize ⟨4, 8, [1, 2, 3, 4, 5, 6, 7, 8]⟩ 1 2 true
          (fun _ => 0)).2
      ∧ (elasticarray_resize ⟨4, 8, [1, 2, 3, 4, 5, 6, 7, 8]⟩ 1 2 true
          (fun _ => 0)).2.alloc
        ≤ 4 * (elasticarray_resize ⟨4, 8, [1, 2, 3, 4, 5, 6, 7, 8]⟩ 1 2 true
            (fun _ => 0)).2.size)
    ∧ (Inv (elasticarray_append ⟨4, 8, [1, 2, 3, 4, 5, 6, 7, 8]⟩ [7, 7] 1 2
          true (fun _ => 0)).2
      ∧ (elasticarray_append ⟨4, 8, [1, 2, 3, 4, 5, 6, 7, 8]⟩ [7, 7] 1 2
          true (fun _ => 0)).2.alloc
        ≤ 4 * (elasticarray_append ⟨4, 8, [1, 2, 3, 4, 5, 6, 7, 8]⟩ [7, 7] 1 2
            true (fun _ => 0)).2.size)
    ∧ (Inv (elasticarray_shrink ⟨4, 8, [1, 2, 3, 4, 5, 6, 7, 8]⟩ 1 2 true
          (fun _ => 0))
      ∧ (elasticarray_shrink ⟨4, 8, [1, 2, 3, 4, 5, 6, 7, 8]⟩ 1 2 true
          (fun _ => 0)).alloc
        ≤ 4 * (elasticarray_shrink ⟨4, 8, [1, 2, 3, 4, 5, 6, 7, 8]⟩ 1 2 true
            (fun _ => 0)).size)
    ∧ (Inv (elasticarray_truncate ⟨4, 8, [1, 2, 3, 4, 5, 6, 7, 8]⟩ true
          (fun _ => 0)).2
      ∧ (elasticarray_truncate ⟨4, 8, [1, 2, 3, 4, 5, 6, 7, 8]⟩ true
          (fun _ => 0)).2.alloc
        ≤ 4 * (elasticarray_truncate ⟨4, 8, [1, 2, 3, 4, 5, 6, 7, 8]⟩ true
            (fun _ => 0)).2.size)
    ∧ (Inv (elasticarray_export ⟨4, 8, [1, 2, 3, 4, 5, 6, 7, 8]⟩ 4 true
          (fun _ => 0)).2
      ∧ (elasticarray_export ⟨4, 8, [1, 2, 3, 4, 5, 6, 7, 8]⟩ 4 true
          (fun _ => 0)).2.alloc
        ≤ 4 * (elasticarray_export ⟨4, 8, [1, 2, 3, 4, 5, 6, 7, 8]⟩ 4 true
            (fun _ => 0)).2.size)
    ∧ (Inv (elasticarray_exportdup ⟨4, 8, [1, 2, 3, 4, 5, 6, 7, 8]⟩ 4 true).2
      ∧ (elasticarray_exportdup ⟨4, 8, [1, 2, 3, 4, 5, 6, 7, 8]⟩ 4 true).2.alloc
        ≤ 4 * (elasticarray_exportdup ⟨4, 8, [1, 2, 3, 4, 5, 6, 7, 8]⟩ 4
            true).2.size) := by
  refine ⟨?_, ?_, ?_, ?_, ?_, ?_, ?_⟩
  · have h := c1_amended.1 2 3 true true (fun _ => 0) ⟨6, 6, [0, 0, 0, 0, 0, 0]⟩
      (by decide) (by decide)
    exact ⟨h.1, h.2 (by decide)⟩
  · have h := c1_amended.2.1 ⟨4, 8, [1, 2, 3, 4, 5, 6, 7, 8]⟩ 1 2 true
      (fun _ => 0) (by decide) (by decide) (by decide)
    exact ⟨h.1, h.2 (by decide) (by decide)⟩
  · have h := c1_amended.2.2.1 ⟨4, 8, [1, 2, 3, 4, 5, 6, 7, 8]⟩ [7, 7] 1 2 true
      (fun _ => 0) (by decide) (by decide) (by decide)
    exact ⟨h.1, h.2 (by decide) (by decide)⟩
  · have h := c1_amended.2.2.2.1 ⟨4, 8, [1, 2, 3, 4, 5, 6, 7, 8]⟩ 1 2 true
      (fun _ => 0) (by decide) (by decide) (by decide)
    exact ⟨h.1, h.2 (by decide) (by decide)⟩
  · have h := c1_amended.2.2.2.2.1 ⟨4, 8, [1, 2, 3, 4, 5, 6, 7, 8]⟩ true
      (fun _ => 0) (by decide)
    exact ⟨h.1, h.2 (by decide) (by decide)⟩
  · have h := c1_amended.2.2.2.2.2.1 ⟨4, 8, [1, 2, 3, 4, 5, 6, 7, 8]⟩ 4 true
      (fun _ => 0) (by decide)
    exact ⟨h.1, h.2 (by decide) (by decide)⟩
  · have h := c1_amended.2.2.2.2.2.2 ⟨4, 8, [1, 2, 3, 4, 5, 6, 7, 8]⟩ 4 true
      (by decide)
    exact ⟨h.1, h.2 (by decide) (by decide)⟩

/-- C3 as stated is refuted by the code: for `A = 2^63`,
`T = 2^63 + 1` (so `A < T`), the source computes `EA->alloc * 2` in
`size_t`, which wraps to `0`, and the new allocation size is `T` — not
`max(T, 2A) = 2^64` as the claim's exact arithmetic demands. -/
theorem c3_counterexample :
    (2 ^ 63 : Nat) < 2 ^ 63 + 1
    ∧ resize_nalloc (2 ^ 63) (2 ^ 63 + 1) ≠ max (2 ^ 63 + 1) (2 * 2 ^ 63) := by
  constructor
  · decide
  · decide

/-- C3 amended: with the products taken in `size_t` (mod `2 ^ 64`)
arithmetic, exactly as the source computes them, the policy holds: if
`A < T` the computed allocation target is `max(T, (2A) mod 2^64)`;
else if `A > (4T) mod 2^64` it is `(2T) mod 2^64`; otherwise it stays
`A`. And whenever the computed target is `0`, `resize` releases the
backing storage entirely (allocation `0`, storage absent) and succeeds
without consulting the allocator — no zero-size reallocation is
issued (the result is the same for both allocator outcomes). -/
theorem c3_amended :
    (∀ A T : Nat, resize_nalloc A T =
       if A < T then max T ((A * 2) % W)
       else if (T * 4) % W < A then (T * 2) % W
       else A)
    ∧ (∀ (EA : EArray) (nsize : Nat) (ok : Bool) (junk : Nat → Nat),
       resize_nalloc EA.alloc nsize = 0 →
       resize EA nsize ok junk = (true, ⟨nsize, 0, []⟩)) := by
  constructor
  · intro A T
    unfold resize_nalloc
    by_cases h : A < T
    · rw [if_pos h, if_pos h]
      rcases Nat.lt_or_ge ((A * 2) % W) T with h2 | h2
      · rw [if_pos h2]
        exact (max_eq_left h2.le).symm
      · rw [if_neg (not_lt.mpr h2)]
        exact (max_eq_right h2).symm
    · rw [if_neg h, if_neg h]
  · intro EA nsize ok junk h0
    rw [resize_eq, if_pos h0]

/-- Witness for the amended C3: shrinking to target `0` from a 4-byte
allocation computes target allocation `0` and releases the storage
without consulting the allocator. -/
theorem c3_witness :
    resize_nalloc (⟨3, 4, [9, 9, 9, 9]⟩ : EArray).alloc 0 = 0
    ∧ resize ⟨3, 4, [9, 9, 9, 9]⟩ 0 false (fun _ => 0) = (true, ⟨0, 0, []⟩) :=
  ⟨by decide,
   c3_amended.2 ⟨3, 4, [9, 9, 9, 9]⟩ 0 false (fun _ => 0) (by decide)⟩

/-- A successful append grows the logical size by exactly `n * len`
bytes (the overflow guards make the arithmetic exact), and the result
still fits in `size_t`. -/
theorem append_success_size {EA : EArray} {src : List Nat} {n len : Nat}
    {ok : Bool} {junk : Nat → Nat} (hlen : 0 < len)
    (hsz : EA.size ≤ SIZE_MAX)
    (h : (elasticarray_append EA src n len ok junk).1 = true) :
    (elasticarray_append EA src n len ok junk).2.size = EA.size + n * len
    ∧ EA.size + n * len ≤ SIZE_MAX := by
  rcases append_master EA src n len ok junk hlen hsz with ⟨hf, _⟩ | hm
  · rw [hf] at h
    cases h
  · exact ⟨hm.2.2.2.1, hm.2.1⟩

theorem appendSeq_size (L : Nat) (hL : 0 < L) :
    ∀ (ops : List (List Nat × Nat × Bool × (Nat → Nat))) (EA EA1 : EArray),
      EA.size ≤ SIZE_MAX → appendSeq L EA ops = some EA1 →
      EA1.size = EA.size + L * (ops.map fun op => op.2.1).sum := by
  intro ops
  induction ops with
  | nil =>
    intro EA EA1 hsz h
    unfold appendSeq at h
    simp only [Option.some_inj] at h
    subst h
    simp
  | cons op rest ih =>
    intro EA EA1 hsz h
    unfold appendSeq at h
    rcases ha : elasticarray_append EA op.1 op.2.1 L op.2.2.1 op.2.2.2
      with ⟨b, EA2⟩
    rw [ha] at h
    cases b
    · simp at h
    · have hs : (elasticarray_append EA op.1 op.2.1 L op.2.2.1 op.2.2.2).1
          = true := by rw [ha]
      obtain ⟨h1, h2⟩ := append_success_size hL hsz hs
      rw [ha] at h1
      have h1' : EA2.size = EA.size + op.2.1 * L := h1
      have h3 := ih EA2 EA1 (by omega) h
      rw [h3, h1']
      simp only [List.map_cons, List.sum_cons]
      ring

/-- C5 amended: for every successful `append(src, n, len)` from a
well-formed state whose resulting logical size `size + n * len` stays
below `2 ^ 63` (so the shrink-policy arithmetic cannot wrap), the new
logical size is the old one plus `n * len`, the first old-size bytes are
unchanged, and the `n * len` bytes at the old end equal `src`;
consequently (with no extra bound needed), for any sequence of
successful appends with fixed record length `L` starting from an empty
buffer, `size(L)` equals the sum of the appended record counts. -/
theorem c5_amended :
    (∀ (EA : EArray) (src : List Nat) (n len : Nat) (ok : Bool)
        (junk : Nat → Nat),
       Inv EA → 0 < len → src.length = n * len →
       EA.size + n * len < 2 ^ 63 →
       (elasticarray_append EA src n len ok junk).1 = true →
       (elasticarray_append EA src n len ok junk).2.size = EA.size + n * len
       ∧ (elasticarray_append EA src n len ok junk).2.buf.take EA.size
           = EA.buf.take EA.size
       ∧ ((elasticarray_append EA src n len ok junk).2.buf.drop EA.size).take
             (n * len) = src)
    ∧ (∀ (L : Nat) (ops : List (List Nat × Nat × Bool × (Nat → Nat)))
        (EA1 : EArray), 0 < L →
       appendSeq L ⟨0, 0, []⟩ ops = some EA1 →
       elasticarray_getsize EA1 L = (ops.map fun op => op.2.1).sum) := by
  constructor
  · intro EA src n len ok junk hInv hlen hsrc hb hs
    have hsz : EA.size ≤ SIZE_MAX := le_trans hInv.1 hInv.2.2
    rcases append_master EA src n len ok junk hlen hsz with ⟨hf, _⟩ | hm
    · rw [hf] at hs
      cases hs
    obtain ⟨ht, hsum, hr, hsize, halloc, hbuf⟩ := hm
    have hge := resize_nalloc_ge (A := EA.alloc) hb
    have hRlen : (resize EA (EA.size + n * len) ok junk).2.buf.length
        = resize_nalloc EA.alloc (EA.size + n * len) :=
      resize_snd_buflen hInv.2.1 hr
    have hmEAbuf : EA.size ≤ EA.buf.length := by
      rw [hInv.2.1]; exact hInv.1
    refine ⟨hsize, ?_, ?_⟩
    · rcases hbuf with ⟨hbf, hn⟩ | ⟨hbf, hn⟩
      · rw [hbf]
        rw [memcpyAt_take _ _ _ (by omega)]
        have hpos : 0 < n * len := Nat.mul_pos hn hlen
        exact resize_content hmEAbuf (by omega) (by omega) hr
      · rw [hbf]
        by_cases h0 : EA.size = 0
        · rw [h0]
          simp
        · exact resize_content hmEAbuf (by omega) (by omega) hr
    · rcases hbuf with ⟨hbf, hn⟩ | ⟨hbf, hn⟩
      · rw [hbf]
        have hsl : (src.take (n * len)).length = n * len := by
          rw [List.length_take, hsrc, min_self]
        have hmid := memcpyAt_middle
          (resize EA (EA.size + n * len) ok junk).2.buf EA.size
          (src.take (n * len)) (by omega)
        rw [hsl] at hmid
        rw [hmid, ← hsrc, List.take_length]
      · have hnl : n * len = 0 := by rw [hn]; ring
        have hsrc0 : src = [] := by
          apply List.length_eq_zero.mp
          rw [hsrc, hnl]
        rw [hsrc0, hnl]
        simp
  · intro L ops EA1 hL h
    have hsz := appendSeq_size L hL ops ⟨0, 0, []⟩ EA1 (Nat.zero_le _) h
    unfold elasticarray_getsize
    rw [hsz]
    show (0 + L * (ops.map fun op => op.2.1).sum) / L = _
    rw [Nat.zero_add, Nat.mul_div_cancel_left _ hL]

/-- C5 as stated is refuted by the code: on the invariant-satisfying
state `EAover`, `append([1,2,3,4], 1, 4)` passes both overflow guards,
the internal `resize` to `2^63` wraps `nsize * 4` and `nsize * 2` to `0`
and frees the backing storage while reporting success, and the
subsequent `memcpy` writes through the null buffer — the bytes at the
old end of the returned array are not `src` (indeed the old content is
gone entirely). -/
theorem c5_counterexample :
    Inv4 EAover
    ∧ ([1, 2, 3, 4] : List Nat).length = 1 * 4
    ∧ (elasticarray_append EAover [1, 2, 3, 4] 1 4 true (fun _ => 0)).1 = true
    ∧ ¬ (((elasticarray_append EAover [1, 2, 3, 4] 1 4 true
            (fun _ => 0)).2.buf.drop EAover.size).take (1 * 4)
          = [1, 2, 3, 4]) := by
  refine ⟨⟨⟨?_, ?_, ?_⟩, ?_⟩, by decide, ?_, ?_⟩
  · show EAover.size ≤ EAover.alloc
    decide
  · show EAover.buf.length = EAover.alloc
    show (List.replicate (2 ^ 63) 0).length = 2 ^ 63
    rw [List.length_replicate]
  · show EAover.alloc ≤ SIZE_MAX
    decide
  · intro _
    show EAover.alloc ≤ 4 * EAover.size
    decide
  · decide
  · decide

/-- Witness for the amended C5 at concrete inputs: appending one 2-byte
record to a well-formed 4-byte array, and a one-append sequence from the
empty array. -/
theorem c5_witness :
    ((elasticarray_append ⟨4, 8, [1, 2, 3, 4, 5, 6, 7, 8]⟩ [7, 7] 1 2 true
        (fun _ => 0)).2.size = 4 + 1 * 2
      ∧ (elasticarray_append ⟨4, 8, [1, 2, 3, 4, 5, 6, 7, 8]⟩ [7, 7] 1 2 true
          (fun _ => 0)).2.buf.take 4
        = (⟨4, 8, [1, 2, 3, 4, 5, 6, 7, 8]⟩ : EArray).buf.take 4
      ∧ ((elasticarray_append ⟨4, 8, [1, 2, 3, 4, 5, 6, 7, 8]⟩ [7, 7] 1 2 true
          (fun _ => 0)).2.buf.drop 4).take (1 * 2) = [7, 7])
    ∧ elasticarray_getsize ⟨2, 2, [7, 7]⟩ 2
        = ([([7, 7], 1, true, fun _ : Nat => (0 : Nat))].map
            fun op => op.2.1).sum :=
  ⟨c5_amended.1 ⟨4, 8, [1, 2, 3, 4, 5, 6, 7, 8]⟩ [7, 7] 1 2 true (fun _ => 0)
     (by decide) (by decide) (by decide) (by decide) (by decide),
   c5_amended.2 2 [([7, 7], 1, true, fun _ : Nat => (0 : Nat))] ⟨2, 2, [7, 7]⟩
     (by decide) (by decide)⟩

end Elasticarray
